import Mathlib

/-!
Shallow embedding of the remote-execution and backup subsystem of `rumi_rs`
(`src/session.rs`, `src/backup.rs`, `src/error.rs`, `src/config.rs`),
together with theorems settling the specification claims about it.

Remote effects (the SSH channel, the remote filesystem) are modelled as
explicit worlds/states passed to the embedded functions; machine integers
are modelled as `Int`/`Nat`; fallible Rust code returning `Result<T, RumiError>`
becomes `Except RumiError T`.
-/

namespace Rumi

/-- The error enum of `src/error.rs` (`RumiError`), restricted to the variants
the embedded core can produce.  Each variant carries the formatted message
string exactly as the Rust constructors build it. -/
inductive RumiError where
  | sshConnection (msg : String)
  | sshAuthentication (msg : String)
  | commandExecution (msg : String)
  | fileOperation (msg : String)
  deriving DecidableEq, Repr

/-- `CommandResult` from `src/session.rs`: the captured outcome of one remote
command.  `exit_status` is the remote process exit code (an `i32` in Rust). -/
structure CommandResult where
  stdout : String
  stderr : String
  exit_status : Int
  command : String
  deriving DecidableEq, Repr

/-- Outcome of running one command over a fresh SSH channel: either the
channel-level machinery failed at some step (open/exec/read/close — all of
which `execute_command` maps to a `CommandExecution` error with the step's
message), or the command ran and produced streams and an exit status. -/
inductive ChannelOutcome where
  | ok (stdout stderr : String) (exit_status : Int)
  | failure (msg : String)
  deriving DecidableEq, Repr

/-- The remote side as seen through `Session::channel_session`/`exec`:
for every command string, what running it over a fresh channel yields. -/
structure RemoteExec where
  runCmd : String → ChannelOutcome

/-- `RumiSession::execute_command` (`src/session.rs:96`): open a channel, run
the command, capture stdout/stderr and the exit status.  A nonzero exit status
is only logged — the function still returns `Ok`. -/
def execute_command (w : RemoteExec) (command : String) : Except RumiError CommandResult :=
  match w.runCmd command with
  | .failure msg => .error (.commandExecution msg)
  | .ok out err code =>
      .ok { stdout := out, stderr := err, exit_status := code, command := command }

/-- `RumiSession::execute_command_checked` (`src/session.rs:135`): as
`execute_command`, but a nonzero exit status becomes a `CommandExecution`
error wrapping the command text, the exit code and the captured stderr. -/
def execute_command_checked (w : RemoteExec) (command : String) :
    Except RumiError CommandResult :=
  match execute_command w command with
  | .error e => .error e
  | .ok result =>
      if result.exit_status ≠ 0 then
        .error (.commandExecution
          ("Command '" ++ command ++ "' failed with exit code " ++
            toString result.exit_status ++ ": " ++ result.stderr))
      else
        .ok result

/-- `RumiSession::file_exists` (`src/session.rs:206`): probe with `test -f`;
an execution error is answered with `Ok(false)`, never propagated. -/
def file_exists (w : RemoteExec) (remote_path : String) : Except RumiError Bool :=
  match execute_command w ("test -f " ++ remote_path) with
  | .ok cmd_result => .ok (cmd_result.exit_status == 0)
  | .error _ => .ok false

/-- `RumiSession::directory_exists` (`src/session.rs:214`): probe with
`test -d`; an execution error is answered with `Ok(false)`. -/
def directory_exists (w : RemoteExec) (remote_path : String) : Except RumiError Bool :=
  match execute_command w ("test -d " ++ remote_path) with
  | .ok cmd_result => .ok (cmd_result.exit_status == 0)
  | .error _ => .ok false

/-- `SshConfig` from `src/config.rs:102` (paths modelled as strings). -/
structure SshConfig where
  host : String
  user : String
  port : Option Nat
  public_key_path : Option String
  private_key_path : Option String
  password : Option String

/-- The three SSH authentication strategies of `RumiSession::authenticate`. -/
inductive AuthMethod where
  | pubkey
  | password
  | agent
  deriving DecidableEq, Repr

/-- Result of a single libssh2 `userauth_*` call: the call itself can fail
with an error message, or return normally, after which the code consults
`session.authenticated()` (the `authenticated` flag here). -/
inductive AuthCallResult where
  | err (msg : String)
  | ok (authenticated : Bool)
  deriving DecidableEq, Repr

/-- The environment `authenticate` interacts with: local key-file existence
(`Path::exists`) and the behaviour of each `userauth_*` call. -/
structure AuthWorld where
  fileExists : String → Bool
  pubkeyCall : AuthCallResult
  passwordCall : AuthCallResult
  agentCall : AuthCallResult

/-- Agent leg of `RumiSession::authenticate` (`src/session.rs:84`):
`userauth_agent`, then the final "All authentication methods failed" error. -/
def tryAgent (w : AuthWorld) (trace : List AuthMethod) :
    Except RumiError Unit × List AuthMethod :=
  match w.agentCall with
  | .err e =>
      (.error (.sshAuthentication ("SSH agent authentication failed: " ++ e)),
        trace ++ [.agent])
  | .ok true => (.ok (), trace ++ [.agent])
  | .ok false =>
      (.error (.sshAuthentication "All authentication methods failed"),
        trace ++ [.agent])

/-- Password leg of `RumiSession::authenticate` (`src/session.rs:71`):
attempted only when a password is configured; a failing `userauth_password`
call propagates immediately, an unauthenticated return falls through to the
agent leg. -/
def tryPassword (config : SshConfig) (w : AuthWorld) (trace : List AuthMethod) :
    Except RumiError Unit × List AuthMethod :=
  match config.password with
  | some _ =>
      match w.passwordCall with
      | .err e =>
          (.error (.sshAuthentication ("Password authentication failed: " ++ e)),
            trace ++ [.password])
      | .ok true => (.ok (), trace ++ [.password])
      | .ok false => tryAgent w (trace ++ [.password])
  | none => tryAgent w trace

/-- `RumiSession::authenticate` (`src/session.rs:44`), returning the Rust
result together with the list of strategies actually attempted (in order).
Key-based authentication runs only when both key paths are configured and
both files exist; a failing `userauth_pubkey_file` call propagates via `?`;
when the key files are missing the code falls through to the password leg. -/
def authenticate (config : SshConfig) (w : AuthWorld) :
    Except RumiError Unit × List AuthMethod :=
  match config.public_key_path, config.private_key_path with
  | some public_key_path, some private_key_path =>
      if w.fileExists public_key_path && w.fileExists private_key_path then
        match w.pubkeyCall with
        | .err e =>
            (.error (.sshAuthentication ("Public key authentication failed: " ++ e)),
              [.pubkey])
        | .ok true => (.ok (), [.pubkey])
        | .ok false => tryPassword config w [.pubkey]
      else
        tryPassword config w []
  | _, _ => tryPassword config w []

/-- Whether the key-based leg is entered at all: both key paths configured
and both files present on the local filesystem. -/
def keyAuthAttempted (config : SshConfig) (w : AuthWorld) : Bool :=
  match config.public_key_path, config.private_key_path with
  | some public_key_path, some private_key_path =>
      w.fileExists public_key_path && w.fileExists private_key_path
  | _, _ => false

/-! ## Backup store (`src/backup.rs`) -/

/-- A `chrono::DateTime<Utc>` instant, modelled as seconds on a totally
ordered integer timeline (the ordering and arithmetic are all the code
uses). -/
abbrev Timestamp := Int

/-- `BackupType` from `src/backup.rs:18`. -/
inductive BackupType where
  | Website
  | Server
  | Database
  | Configuration
  deriving DecidableEq, Repr

/-- `BackupInfo` from `src/backup.rs:6` (the spec's `BackupRecord`). -/
structure BackupInfo where
  id : String
  deployment_name : String
  domain : String
  created_at : Timestamp
  backup_type : BackupType
  remote_path : String
  size_bytes : Nat
  description : Option String
  deriving DecidableEq, Repr

/-- `BackupManager` from `src/backup.rs:26`. -/
structure BackupManager where
  backup_base_path : String

/-- `chrono::Duration::days`, on the seconds timeline. -/
def durationDays (d : Nat) : Int := 86400 * (d : Int)

/-- The remote filesystem and command behaviour as the backup manager sees
it:

* `metadataDirExists` — answer of the `test -d {base}/metadata` probe;
* `findResult` — `none` when the checked `find … -name '*.json'` command
  succeeds (its output enumerating `metaFiles` in order), otherwise the
  error the checked execution produced;
* `metaFiles` — the metadata files `find` enumerates, each with the result
  of `cat`-ing and JSON-parsing it (`none` models both a failed `cat` and a
  malformed payload, which `list_backups` treats identically: skip);
* `archives` — the paths for which the `test -f` probe answers true;
* `rmExit` — exit status of `sudo rm -f {path}` for each path (a
  channel-level failure of that command is modelled as a nonzero exit:
  both produce a `CommandExecution` error from the checked runner);
* `rmStderr` — the stderr that failing `rm` captured. -/
structure RemoteFS where
  metadataDirExists : Bool
  findResult : Option RumiError
  metaFiles : List (String × Option BackupInfo)
  archives : List String
  rmExit : String → Int
  rmStderr : String → String

/-- The records that parse cleanly, in catalog enumeration order. -/
def parsedRecords (st : RemoteFS) : List BackupInfo :=
  st.metaFiles.filterMap (fun e => e.2)

/-- The comparator `|a, b| b.created_at.cmp(&a.created_at)` passed to the
stable `sort_by` in `list_backups` (`src/backup.rs:207`), as the "comes
before or ties" Boolean relation: `a` may precede `b` iff
`b.created_at ≤ a.created_at`. -/
def newestFirst (a b : BackupInfo) : Bool :=
  decide (b.created_at ≤ a.created_at)

/-- `BackupManager::list_backups` (`src/backup.rs:175`): empty list when the
metadata directory is missing; otherwise enumerate the metadata files,
keep the records that `cat`+parse cleanly, filter by deployment name when
one is given, and stable-sort by `created_at` descending. -/
def list_backups (st : RemoteFS) (deployment_name : Option String) :
    Except RumiError (List BackupInfo) :=
  if st.metadataDirExists then
    match st.findResult with
    | some e => .error e
    | none =>
        let records : List BackupInfo := parsedRecords st
        let selected : List BackupInfo :=
          match deployment_name with
          | some filter_name => records.filter (fun b => b.deployment_name == filter_name)
          | none => records
        .ok (selected.mergeSort newestFirst)
  else
    .ok []

/-- The `sudo rm -f {path}` command text issued by `delete_backup`. -/
def rmCmdFor (path : String) : String := "sudo rm -f " ++ path

/-- The error the checked runner produces when `sudo rm -f {path}` exits
nonzero (`execute_command_checked` wrapping). -/
def rmError (st : RemoteFS) (path : String) : RumiError :=
  .commandExecution
    ("Command '" ++ rmCmdFor path ++ "' failed with exit code " ++
      toString (st.rmExit path) ++ ": " ++ st.rmStderr path)

/-- Effect of a successful `sudo rm -f {path}`: the file at that path is
gone, both as an archive and as a metadata file. -/
def removePath (st : RemoteFS) (path : String) : RemoteFS :=
  { st with
    archives := st.archives.filter (fun q => !(q == path)),
    metaFiles := st.metaFiles.filter (fun e => !(e.1 == path)) }

/-- The `test -f` probe of `RumiSession::file_exists` against this state. -/
def fileExistsFS (st : RemoteFS) (path : String) : Bool :=
  st.archives.any (fun q => q == path) || st.metaFiles.any (fun e => e.1 == path)

/-- `{base}/metadata/{id}.json`, the metadata path `delete_backup` and
`save_backup_metadata` construct. -/
def metaPath (mgr : BackupManager) (id : String) : String :=
  mgr.backup_base_path ++ "/metadata/" ++ id ++ ".json"

/-- Result of one `delete_backup` run: the Rust return value, the resulting
remote state, and the `rm` commands that were actually issued (in order). -/
structure DeleteOutcome where
  result : Except RumiError Unit
  state : RemoteFS
  rmIssued : List String

/-- `BackupManager::delete_backup` (`src/backup.rs:212`): locate the record
by a linear scan of `list_backups(None)`; if absent fail with the
"Backup not found" `FileOperation` error.  Otherwise remove the archive
file if it exists (checked `rm`, whose failure aborts), then remove the
metadata file if it exists (checked `rm`). -/
def delete_backup (mgr : BackupManager) (st : RemoteFS) (backup_id : String) :
    DeleteOutcome :=
  match list_backups st none with
  | .error e => ⟨.error e, st, []⟩
  | .ok backups =>
      match backups.find? (fun b => b.id == backup_id) with
      | none => ⟨.error (.fileOperation ("Backup not found: " ++ backup_id)), st, []⟩
      | some backup =>
          if fileExistsFS st backup.remote_path then
            if st.rmExit backup.remote_path == 0 then
              deleteMetadata mgr (removePath st backup.remote_path) backup_id
                [rmCmdFor backup.remote_path]
            else
              ⟨.error (rmError st backup.remote_path), st, [rmCmdFor backup.remote_path]⟩
          else
            deleteMetadata mgr st backup_id []
where
  /-- Second half of `delete_backup`: remove `{base}/metadata/{id}.json`
  if it exists. -/
  deleteMetadata (mgr : BackupManager) (st : RemoteFS) (backup_id : String)
      (issued : List String) : DeleteOutcome :=
    let mp := metaPath mgr backup_id
    if fileExistsFS st mp then
      if st.rmExit mp == 0 then
        ⟨.ok (), removePath st mp, issued ++ [rmCmdFor mp]⟩
      else
        ⟨.error (rmError st mp), st, issued ++ [rmCmdFor mp]⟩
    else
      ⟨.ok (), st, issued⟩

/-- Result of one `cleanup_old_backups` run: the Rust return value, the
resulting remote state, the `deleted_count` the code accumulates (it is
only logged), and the ids `delete_backup` was invoked on (in order). -/
structure CleanupOutcome where
  result : Except RumiError Unit
  state : RemoteFS
  deleted_count : Nat
  attempted : List String

/-- The `for backup in backups` sweep of `cleanup_old_backups`
(`src/backup.rs:243`): delete each record older than the cutoff, counting
successes and swallowing (logging) per-record failures. -/
def cleanupLoop (mgr : BackupManager) (cutoff : Int) :
    List BackupInfo → RemoteFS → Nat → RemoteFS × Nat × List String
  | [], st, count => (st, count, [])
  | backup :: rest, st, count =>
      if backup.created_at < cutoff then
        let d := delete_backup mgr st backup.id
        match d.result with
        | .error _ =>
            let r := cleanupLoop mgr cutoff rest d.state count
            (r.1, r.2.1, backup.id :: r.2.2)
        | .ok _ =>
            let r := cleanupLoop mgr cutoff rest d.state (count + 1)
            (r.1, r.2.1, backup.id :: r.2.2)
      else
        cleanupLoop mgr cutoff rest st count

/-- `BackupManager::cleanup_old_backups` (`src/backup.rs:236`): list all
backups, compute `cutoff = now - retention_days` days, sweep.  The Rust
function's return type is `Result<()>`: it returns `Ok(())` after the sweep,
the count of deletions is only logged. -/
def cleanup_old_backups (mgr : BackupManager) (st : RemoteFS) (now : Int)
    (retention_days : Nat) : CleanupOutcome :=
  match list_backups st none with
  | .error e => ⟨.error e, st, 0, []⟩
  | .ok backups =>
      let cutoff := now - durationDays retention_days
      let r := cleanupLoop mgr cutoff backups st 0
      ⟨.ok (), r.1, r.2.1, r.2.2⟩

/-! ## JSON serialization of `BackupInfo`

`BackupInfo` derives serde's `Serialize`/`Deserialize`; the JSON value tree
is modelled by `Json` below.  The RFC3339 text chrono emits for `created_at`
is abstracted to the underlying instant, carried in a scalar leaf — the
codec of interest is the field structure the derive generates. -/

/-- A JSON value, as far as the `BackupInfo` shape needs. -/
inductive Json where
  | null
  | bool (b : Bool)
  | num (n : Int)
  | str (s : String)
  | obj (fields : List (String × Json))

/-- Look up a field of a JSON object by name (first occurrence). -/
def getField (fields : List (String × Json)) (key : String) : Option Json :=
  (fields.find? (fun p => p.1 == key)).map (fun p => p.2)

/-- serde encoding of the unit-variant enum `BackupType`: the variant name
as a JSON string. -/
def encodeBackupType : BackupType → Json
  | .Website => .str "Website"
  | .Server => .str "Server"
  | .Database => .str "Database"
  | .Configuration => .str "Configuration"

/-- serde decoding of `BackupType`. -/
def decodeBackupType : Json → Option BackupType
  | .str "Website" => some .Website
  | .str "Server" => some .Server
  | .str "Database" => some .Database
  | .str "Configuration" => some .Configuration
  | _ => none

/-- serde encoding of `BackupInfo`: an object with one field per struct
field, in declaration order; `description : Option<String>` encodes as
`null` or a string. -/
def encodeBackupInfo (b : BackupInfo) : Json :=
  .obj
    [("id", .str b.id),
     ("deployment_name", .str b.deployment_name),
     ("domain", .str b.domain),
     ("created_at", .num b.created_at),
     ("backup_type", encodeBackupType b.backup_type),
     ("remote_path", .str b.remote_path),
     ("size_bytes", .num (b.size_bytes : Int)),
     ("description", match b.description with
                     | some s => .str s
                     | none => .null)]

/-- serde decoding of `BackupInfo`: every field must be present and have
the right shape; `size_bytes` must be a non-negative integer (`u64`). -/
def decodeBackupInfo (j : Json) : Option BackupInfo :=
  match j with
  | .obj fields => do
      let .str id ← getField fields "id" | none
      let .str deployment_name ← getField fields "deployment_name" | none
      let .str domain ← getField fields "domain" | none
      let .num created_at ← getField fields "created_at" | none
      let some backup_type ← (getField fields "backup_type").map decodeBackupType | none
      let .str remote_path ← getField fields "remote_path" | none
      let .num (.ofNat size_bytes) ← getField fields "size_bytes" | none
      let some description ←
        (getField fields "description").map (fun v =>
          match v with
          | .null => some (none : Option String)
          | .str s => some (some s)
          | _ => none) | none
      some { id := id, deployment_name := deployment_name, domain := domain,
             created_at := created_at, backup_type := backup_type,
             remote_path := remote_path, size_bytes := size_bytes,
             description := description }
  | _ => none

/-! ## Configuration backup (`create_configuration_backup`) -/

/-- The remote interactions `create_configuration_backup` performs, in
program order.  Checked commands (`mkdir`, `tar`, `stat`, the metadata
`mkdir`) carry the error the checked runner would produce on failure;
the unchecked commands (the two guarded `cp`s and the staging cleanup
`rm`) carry a channel-level error, the only way `execute_command` fails. -/
structure CfgWorld where
  mkdirBackupDir : Except RumiError Unit
  cpNginx : Except RumiError Unit
  cpSsl : Except RumiError Unit
  tar : Except RumiError Unit
  rmStaged : Except RumiError Unit
  stat : Except RumiError String
  mkdirMetadataDir : Except RumiError Unit
  writeMetadata : Except RumiError Unit

/-- Result of one `create_configuration_backup` run: the Rust return value
and the remote commands actually issued, in order. -/
structure CfgOutcome where
  result : Except RumiError BackupInfo
  issued : List String

/-- `BackupManager::create_configuration_backup` (`src/backup.rs:83`).
`backup_id` stands for the fresh UUID, `timestamp` for `Utc::now()` and
`tsStr` for its `%Y%m%d_%H%M%S` rendering used in the archive name.  The
staged nginx/TLS copies are made best-effort (`… || true`), the directory
is compressed (checked), the staged copies are removed, the archive size
is measured (checked) and parsed, and the metadata record is persisted. -/
def create_configuration_backup (mgr : BackupManager) (w : CfgWorld)
    (backup_id : String) (timestamp : Timestamp) (tsStr : String)
    (deployment_name domain : String) : CfgOutcome :=
  let backup_name := deployment_name ++ "_" ++ domain ++ "_config_" ++ tsStr
  let backup_path := mgr.backup_base_path ++ "/" ++ backup_name
  let mkdirCmd := "sudo mkdir -p " ++ backup_path
  let nginxCmd := "sudo cp -r /etc/nginx/sites-available/" ++ domain ++ " " ++
    backup_path ++ "/nginx_config 2>/dev/null || true"
  let sslCmd := "sudo cp -r /etc/letsencrypt/live/" ++ domain ++ " " ++
    backup_path ++ "/ssl_certs 2>/dev/null || true"
  let tarCmd := "sudo tar -czf " ++ backup_path ++ "/" ++ backup_name ++
    ".tar.gz -C " ++ backup_path ++ " ."
  let rmCmd := "sudo rm -rf " ++ backup_path ++ "/nginx_config " ++
    backup_path ++ "/ssl_certs"
  let statCmd := "stat -c%s " ++ backup_path ++ "/" ++ backup_name ++ ".tar.gz"
  match w.mkdirBackupDir with
  | .error e => ⟨.error e, [mkdirCmd]⟩
  | .ok _ =>
  match w.cpNginx with
  | .error e => ⟨.error e, [mkdirCmd, nginxCmd]⟩
  | .ok _ =>
  match w.cpSsl with
  | .error e => ⟨.error e, [mkdirCmd, nginxCmd, sslCmd]⟩
  | .ok _ =>
  match w.tar with
  | .error e => ⟨.error e, [mkdirCmd, nginxCmd, sslCmd, tarCmd]⟩
  | .ok _ =>
  match w.rmStaged with
  | .error e => ⟨.error e, [mkdirCmd, nginxCmd, sslCmd, tarCmd, rmCmd]⟩
  | .ok _ =>
  match w.stat with
  | .error e => ⟨.error e, [mkdirCmd, nginxCmd, sslCmd, tarCmd, rmCmd, statCmd]⟩
  | .ok statOut =>
  match statOut.trim.toNat? with
  | none =>
      ⟨.error (.fileOperation "Failed to parse backup size"),
        [mkdirCmd, nginxCmd, sslCmd, tarCmd, rmCmd, statCmd]⟩
  | some size_bytes =>
  let backup_info : BackupInfo :=
    { id := backup_id, deployment_name := deployment_name, domain := domain,
      created_at := timestamp, backup_type := .Configuration,
      remote_path := backup_path ++ "/" ++ backup_name ++ ".tar.gz",
      size_bytes := size_bytes,
      description := some ("Configuration backup for " ++ domain) }
  let metaMkdirCmd := "sudo mkdir -p " ++ mgr.backup_base_path ++ "/metadata"
  match w.mkdirMetadataDir with
  | .error e =>
      ⟨.error e, [mkdirCmd, nginxCmd, sslCmd, tarCmd, rmCmd, statCmd, metaMkdirCmd]⟩
  | .ok _ =>
  match w.writeMetadata with
  | .error e =>
      ⟨.error e, [mkdirCmd, nginxCmd, sslCmd, tarCmd, rmCmd, statCmd, metaMkdirCmd]⟩
  | .ok _ =>
      ⟨.ok backup_info, [mkdirCmd, nginxCmd, sslCmd, tarCmd, rmCmd, statCmd, metaMkdirCmd]⟩

/-- The staging-cleanup command of a given configuration backup run. -/
def stagedCleanupCmd (mgr : BackupManager) (tsStr deployment_name domain : String) :
    String :=
  let backup_name := deployment_name ++ "_" ++ domain ++ "_config_" ++ tsStr
  let backup_path := mgr.backup_base_path ++ "/" ++ backup_name
  "sudo rm -rf " ++ backup_path ++ "/nginx_config " ++ backup_path ++ "/ssl_certs"

/-- The commands a configuration backup run issues before the staging
cleanup: directory creation, the two guarded copies, and the compression. -/
def cfgCmdsBeforeCleanup (mgr : BackupManager) (tsStr deployment_name domain : String) :
    List String :=
  let backup_name := deployment_name ++ "_" ++ domain ++ "_config_" ++ tsStr
  let backup_path := mgr.backup_base_path ++ "/" ++ backup_name
  ["sudo mkdir -p " ++ backup_path,
   "sudo cp -r /etc/nginx/sites-available/" ++ domain ++ " " ++ backup_path ++
     "/nginx_config 2>/dev/null || true",
   "sudo cp -r /etc/letsencrypt/live/" ++ domain ++ " " ++ backup_path ++
     "/ssl_certs 2>/dev/null || true",
   "sudo tar -czf " ++ backup_path ++ "/" ++ backup_name ++ ".tar.gz -C " ++
     backup_path ++ " ."]

end Rumi

namespace Rumi

/-! ## Claim theorems -/

/-- **C3**: `run(command)` (`execute_command`) always returns a
`CommandOutcome` once the channel machinery works, even when the remote exit
code is nonzero, and never errors solely because the remote command failed;
`runChecked(command)` (`execute_command_checked`) additionally errors exactly
when the exit code is nonzero, wrapping the stderr text and exit code into
the error message. -/
theorem run_and_runChecked_exit_code_contract (w : RemoteExec)
    (command out err : String) (code : Int)
    (h : w.runCmd command = .ok out err code) :
    execute_command w command =
      .ok { stdout := out, stderr := err, exit_status := code, command := command } ∧
    (code ≠ 0 → execute_command_checked w command =
      .error (.commandExecution ("Command '" ++ command ++ "' failed with exit code " ++
        toString code ++ ": " ++ err))) ∧
    (code = 0 → execute_command_checked w command =
      .ok { stdout := out, stderr := err, exit_status := code, command := command }) := by
  refine ⟨by simp [execute_command, h], ?_, ?_⟩
  · intro hne
    simp [execute_command_checked, execute_command, h, hne]
  · intro hz
    simp [execute_command_checked, execute_command, h, hz]

/-- A remote side on which every command runs and exits with status 7. -/
def exitSevenWorld : RemoteExec := ⟨fun _ => .ok "some output" "some error" 7⟩

/-- Witness for C3 at a command exiting 7. -/
theorem run_and_runChecked_exit_code_contract_witness :
    execute_command exitSevenWorld "false" =
      .ok { stdout := "some output", stderr := "some error", exit_status := 7,
            command := "false" } ∧
    execute_command_checked exitSevenWorld "false" =
      .error (.commandExecution
        "Command 'false' failed with exit code 7: some error") :=
  ⟨(run_and_runChecked_exit_code_contract exitSevenWorld "false"
      "some output" "some error" 7 rfl).1,
   (run_and_runChecked_exit_code_contract exitSevenWorld "false"
      "some output" "some error" 7 rfl).2.1 (by decide)⟩

/-- **C9**: `fileExists` and `directoryExists` always return a Boolean
(`Ok` result) for every path, and any execution failure of the probe is
answered with `false` rather than a propagated error. -/
theorem probes_never_error (w : RemoteExec) (path : String) :
    (∃ b, file_exists w path = .ok b) ∧
    (∃ b, directory_exists w path = .ok b) ∧
    (∀ msg, w.runCmd ("test -f " ++ path) = .failure msg →
      file_exists w path = .ok false) ∧
    (∀ msg, w.runCmd ("test -d " ++ path) = .failure msg →
      directory_exists w path = .ok false) := by
  refine ⟨?_, ?_, ?_, ?_⟩
  · cases h : w.runCmd ("test -f " ++ path) with
    | ok out err code => exact ⟨(code == 0), by simp [file_exists, execute_command, h]⟩
    | failure msg => exact ⟨false, by simp [file_exists, execute_command, h]⟩
  · cases h : w.runCmd ("test -d " ++ path) with
    | ok out err code => exact ⟨(code == 0), by simp [directory_exists, execute_command, h]⟩
    | failure msg => exact ⟨false, by simp [directory_exists, execute_command, h]⟩
  · intro msg h
    simp [file_exists, execute_command, h]
  · intro msg h
    simp [directory_exists, execute_command, h]

/-- A remote side on which every command fails at the channel level. -/
def channelFailWorld : RemoteExec := ⟨fun _ => .failure "channel broken"⟩

/-- Witness for C9: on a channel that always fails, both probes answer
`Ok(false)`. -/
theorem probes_never_error_witness :
    file_exists channelFailWorld "/etc/passwd" = .ok false ∧
    directory_exists channelFailWorld "/etc" = .ok false :=
  ⟨(probes_never_error channelFailWorld "/etc/passwd").2.2.1 "channel broken" rfl,
   (probes_never_error channelFailWorld "/etc").2.2.2 "channel broken" rfl⟩

/-- **C8**: decoding the JSON encoding of any `BackupInfo` recovers the
record, all eight fields included. -/
theorem backupInfo_json_roundTrip (r : BackupInfo) :
    decodeBackupInfo (encodeBackupInfo r) = some r := by
  obtain ⟨id, dn, dom, ts, bt, rp, sz, desc⟩ := r
  cases bt <;> cases desc <;> rfl

/-- The agent leg appends exactly `agent` to the attempt trace. -/
theorem tryAgent_trace (w : AuthWorld) (trace : List AuthMethod) :
    (tryAgent w trace).2 = trace ++ [.agent] := by
  cases h : w.agentCall with
  | err msg => simp [tryAgent, h]
  | ok b => cases b <;> simp [tryAgent, h]

/-- When a password is configured, the password leg records a password
attempt, and if the password call returns unauthenticated the agent leg is
reached as well. -/
theorem tryPassword_attempts (config : SshConfig) (w : AuthWorld)
    (trace : List AuthMethod) (hpw : config.password.isSome) :
    AuthMethod.password ∈ (tryPassword config w trace).2 ∧
    (w.passwordCall = .ok false →
      AuthMethod.agent ∈ (tryPassword config w trace).2) := by
  obtain ⟨pw, hpw⟩ := Option.isSome_iff_exists.mp hpw
  constructor
  · cases h : w.passwordCall with
    | err msg => simp [tryPassword, hpw, h]
    | ok b =>
        cases b
        · simp [tryPassword, hpw, h, tryAgent_trace]
        · simp [tryPassword, hpw, h]
  · intro h
    simp [tryPassword, hpw, h, tryAgent_trace]

/-- A credential/world pair where both key files are configured and present,
the key-auth call itself fails, and a valid password is available. -/
def keyErrCfg : SshConfig :=
  { host := "h", user := "root", port := some 22,
    public_key_path := some "/root/.ssh/id_rsa.pub",
    private_key_path := some "/root/.ssh/id_rsa",
    password := some "pw" }

/-- World for the C1 counterexample: key files exist, `userauth_pubkey_file`
returns an error, while both password and agent authentication would
succeed if attempted. -/
def keyErrWorld : AuthWorld :=
  { fileExists := fun _ => true,
    pubkeyCall := .err "denied",
    passwordCall := .ok true,
    agentCall := .ok true }

/-- **C1, counterexample**: with both key paths configured and present, a
password supplied, and the key-auth call failing (so key authentication was
attempted and did not succeed), `authenticate` fails immediately with the
key error — the password strategy (which would have succeeded) is never
attempted, contradicting the claimed fallback. -/
theorem auth_no_password_fallback_after_key_error :
    keyErrCfg.password = some "pw" ∧
    authenticate keyErrCfg keyErrWorld =
      (.error (.sshAuthentication "Public key authentication failed: denied"),
        [.pubkey]) ∧
    AuthMethod.password ∉ (authenticate keyErrCfg keyErrWorld).2 := by
  refine ⟨rfl, rfl, ?_⟩
  decide

/-- **C1, amended**: if key authentication was *not attempted* (key paths
not both configured, or a key file missing) or the key-auth call returned
without error but left the session unauthenticated, and a password is
supplied, then password authentication is attempted (and, if the password
call returns unauthenticated, agent authentication after it).  An error
from the key-auth call itself, by contrast, aborts authentication
immediately (see the counterexample). -/
theorem auth_password_fallback (config : SshConfig) (w : AuthWorld)
    (hkey : keyAuthAttempted config w = false ∨ w.pubkeyCall = .ok false)
    (hpw : config.password.isSome) :
    AuthMethod.password ∈ (authenticate config w).2 ∧
    (w.passwordCall = .ok false →
      AuthMethod.agent ∈ (authenticate config w).2) := by
  have main : (authenticate config w).2 = (tryPassword config w []).2 ∨
      (authenticate config w).2 = (tryPassword config w [.pubkey]).2 := by
    unfold authenticate
    cases hp : config.public_key_path with
    | none =>
        cases config.private_key_path <;> simp
    | some pub =>
        cases hq : config.private_key_path with
        | none => simp
        | some priv =>
            by_cases hex : w.fileExists pub && w.fileExists priv
            · have : w.pubkeyCall = .ok false := by
                rcases hkey with hkey | hkey
                · exfalso
                  simp [keyAuthAttempted, hp, hq, hex] at hkey
                · exact hkey
              simp [hex, this]
            · simp [hex]
  rcases main with h | h <;> rw [h]
  · exact tryPassword_attempts config w [] hpw
  · exact tryPassword_attempts config w [.pubkey] hpw

/-- Credentials with no key material and a password, for the C1 witness. -/
def pwOnlyCfg : SshConfig :=
  { host := "h", user := "root", port := none,
    public_key_path := none, private_key_path := none,
    password := some "pw" }

/-- World for the C1 witness: password auth is reachable but returns
unauthenticated, so the agent leg is exercised too. -/
def pwOnlyWorld : AuthWorld :=
  { fileExists := fun _ => false,
    pubkeyCall := .ok false,
    passwordCall := .ok false,
    agentCall := .ok true }

/-- Witness for the amended C1: with only a password configured, the
password strategy is attempted, and since it returns unauthenticated the
agent strategy follows. -/
theorem auth_password_fallback_witness :
    (keyAuthAttempted pwOnlyCfg pwOnlyWorld = false ∨
      pwOnlyWorld.pubkeyCall = .ok false) ∧
    pwOnlyCfg.password.isSome = true ∧
    AuthMethod.password ∈ (authenticate pwOnlyCfg pwOnlyWorld).2 ∧
    AuthMethod.agent ∈ (authenticate pwOnlyCfg pwOnlyWorld).2 :=
  ⟨Or.inl rfl, rfl,
   (auth_password_fallback pwOnlyCfg pwOnlyWorld (Or.inl rfl) rfl).1,
   (auth_password_fallback pwOnlyCfg pwOnlyWorld (Or.inl rfl) rfl).2 rfl⟩

/-- The backup manager at its default root (`BackupManager::default`). -/
def defaultMgr : BackupManager := ⟨"/var/backups/rumi"⟩

/-- A configuration-backup world in which everything works except the
compression step. -/
def tarFailWorld : CfgWorld :=
  { mkdirBackupDir := .ok (), cpNginx := .ok (), cpSsl := .ok (),
    tar := .error (.commandExecution "tar failed"),
    rmStaged := .ok (), stat := .ok "42", mkdirMetadataDir := .ok (),
    writeMetadata := .ok () }

/-- **C5, counterexample**: when the compress command fails,
`create_configuration_backup` aborts at the tar step and the staged-copy
cleanup command is *not* issued — the staged copies are not removed on the
failure outcome, contradicting "regardless of the compression's outcome". -/
theorem cfg_cleanup_not_issued_on_tar_failure :
    (create_configuration_backup defaultMgr tarFailWorld "id0" 0
        "20240101_000000" "dep" "example.com").result =
      .error (.commandExecution "tar failed") ∧
    stagedCleanupCmd defaultMgr "20240101_000000" "dep" "example.com" ∉
      (create_configuration_backup defaultMgr tarFailWorld "id0" 0
        "20240101_000000" "dep" "example.com").issued := by
  constructor
  · rfl
  · decide

/-- **C5, amended**: after a *successful* compression the staged copies are
removed (the cleanup command is issued no matter how the later steps fare),
but when the compress command fails the operation aborts immediately after
the tar command — only the four preceding commands were issued, and the
staged copies are left in place. -/
theorem cfg_cleanup_after_compression (mgr : BackupManager) (w : CfgWorld)
    (backup_id : String) (timestamp : Timestamp)
    (tsStr deployment_name domain : String)
    (h1 : w.mkdirBackupDir = .ok ()) (h2 : w.cpNginx = .ok ())
    (h3 : w.cpSsl = .ok ()) :
    (w.tar = .ok () →
      stagedCleanupCmd mgr tsStr deployment_name domain ∈
        (create_configuration_backup mgr w backup_id timestamp tsStr
          deployment_name domain).issued) ∧
    (∀ e, w.tar = .error e →
      (create_configuration_backup mgr w backup_id timestamp tsStr
        deployment_name domain).result = .error e ∧
      (create_configuration_backup mgr w backup_id timestamp tsStr
        deployment_name domain).issued =
        cfgCmdsBeforeCleanup mgr tsStr deployment_name domain) := by
  constructor
  · intro htar
    have hmem : ∀ (c1 c2 c3 c4 s : String) (rest : List String),
        s ∈ c1 :: c2 :: c3 :: c4 :: s :: rest :=
      fun _ _ _ _ _ _ => .tail _ (.tail _ (.tail _ (.tail _ (.head _))))
    unfold create_configuration_backup stagedCleanupCmd
    rw [h1, h2, h3, htar]
    repeat' split
    all_goals try exact hmem _ _ _ _ _ _
    all_goals contradiction
  · intro e htar
    unfold create_configuration_backup
    rw [h1, h2, h3, htar]
    exact ⟨rfl, by simp [cfgCmdsBeforeCleanup]⟩

/-- A configuration-backup world in which every step succeeds. -/
def cfgOkWorld : CfgWorld :=
  { mkdirBackupDir := .ok (), cpNginx := .ok (), cpSsl := .ok (),
    tar := .ok (), rmStaged := .ok (), stat := .ok "1024",
    mkdirMetadataDir := .ok (), writeMetadata := .ok () }

/-- `newestFirst` is transitive (as `mergeSort` requires). -/
theorem newestFirst_trans (a b c : BackupInfo) :
    newestFirst a b → newestFirst b c → newestFirst a c := by
  intro h1 h2
  simp only [newestFirst, decide_eq_true_eq] at h1 h2 ⊢
  exact le_trans h2 h1

/-- `newestFirst` is total (as `mergeSort` requires). -/
theorem newestFirst_total (a b : BackupInfo) :
    newestFirst a b || newestFirst b a := by
  simp only [newestFirst, Bool.or_eq_true, decide_eq_true_eq]
  exact Int.le_total b.created_at a.created_at

/-- If two concatenations agree, every element on the left of each split
satisfies `Q` and every element on the right refutes it, then the splits
coincide. -/
theorem append_split_eq {α : Type _} {Q : α → Prop} :
    ∀ {x u y v : List α},
      (∀ a ∈ x, Q a) → (∀ a ∈ u, Q a) → (∀ a ∈ y, ¬Q a) → (∀ a ∈ v, ¬Q a) →
      x ++ y = u ++ v → x = u ∧ y = v := by
  intro x
  induction x with
  | nil =>
      intro u y v _ hu hy _ h
      cases u with
      | nil => exact ⟨rfl, by simpa using h⟩
      | cons b u' =>
          exfalso
          rw [List.nil_append] at h
          exact hy b (h ▸ List.mem_cons_self b (u' ++ v))
            (hu b (List.mem_cons_self b u'))
  | cons a x' ih =>
      intro u y v hx hu hy hv h
      cases u with
      | nil =>
          exfalso
          rw [List.nil_append] at h
          exact hv a (h ▸ List.mem_cons_self a (x' ++ y))
            (hx a (List.mem_cons_self a x'))
      | cons b u' =>
          injection h with h1 h2
          subst h1
          obtain ⟨e1, e2⟩ := ih (fun c hc => hx c (List.mem_cons_of_mem a hc))
            (fun c hc => hu c (List.mem_cons_of_mem a hc)) hy hv h2
          exact ⟨by rw [e1], e2⟩

/-- Stable merge sort commutes with `filter`: sorting the filtered list is
the same as filtering the sorted list (for a transitive, total comparator).
This is the extensional footprint of `sort_by`'s stability that the
deployment filter relies on. -/
theorem mergeSort_filter {α : Type _} {le : α → α → Bool}
    (htrans : ∀ (a b c : α), le a b → le b c → le a c)
    (htotal : ∀ (a b : α), le a b || le b a) (P : α → Bool) :
    ∀ l : List α, (l.filter P).mergeSort le = (l.mergeSort le).filter P := by
  intro l
  induction l with
  | nil => simp
  | cons a l ih =>
      obtain ⟨l₁, l₂, h1, h2, h3⟩ := List.mergeSort_cons htrans htotal a l
      have hl₂ : ∀ c ∈ l₂, le a c := by
        have s := List.sorted_mergeSort htrans htotal (a :: l)
        rw [h1] at s
        intro c hc
        exact List.rel_of_pairwise_cons (List.pairwise_append.mp s).2.1 hc
      by_cases hPa : P a = true
      · rw [List.filter_cons_of_pos hPa]
        obtain ⟨m₁, m₂, g1, g2, g3⟩ := List.mergeSort_cons htrans htotal a (l.filter P)
        have hm₂ : ∀ c ∈ m₂, le a c := by
          have s := List.sorted_mergeSort htrans htotal (a :: l.filter P)
          rw [g1] at s
          intro c hc
          exact List.rel_of_pairwise_cons (List.pairwise_append.mp s).2.1 hc
        have hsplit : m₁ ++ m₂ = l₁.filter P ++ l₂.filter P := by
          rw [← List.filter_append, ← h2, ← ih, g2]
        obtain ⟨e1, e2⟩ := append_split_eq (Q := fun b => le a b = false)
          (fun b hb => by simpa using g3 b hb)
          (fun b hb => by simpa using h3 b (List.mem_of_mem_filter hb))
          (fun c hc hfalse => by
            have := hm₂ c hc
            simp [hfalse] at this)
          (fun c hc hfalse => by
            have := hl₂ c (List.mem_of_mem_filter hc)
            simp [hfalse] at this)
          hsplit
        rw [g1, h1, e1, e2, List.filter_append, List.filter_cons_of_pos hPa]
      · rw [List.filter_cons_of_neg hPa, ih, h1, h2, List.filter_append,
          List.filter_append, List.filter_cons_of_neg hPa]

/-- Shape of a successful `list_backups` call: either the metadata
directory is absent (empty result), or the catalog scan ran. -/
theorem list_backups_ok_inv (st : RemoteFS) (f : Option String)
    (l : List BackupInfo) (h : list_backups st f = .ok l) :
    (st.metadataDirExists = false ∧ l = []) ∨
    (st.metadataDirExists = true ∧ st.findResult = none) := by
  unfold list_backups at h
  by_cases hdir : st.metadataDirExists
  · rw [if_pos hdir] at h
    cases hf : st.findResult with
    | some e => rw [hf] at h; cases h
    | none => exact Or.inr ⟨by simpa using hdir, rfl⟩
  · rw [if_neg hdir] at h
    exact Or.inl ⟨by simpa using hdir, by injection h with h; exact h.symm⟩

/-- The records a `list_backups` scan keeps before sorting: the cleanly
parsed ones, filtered by deployment name when a filter is given. -/
def selectedRecords (st : RemoteFS) (f : Option String) : List BackupInfo :=
  match f with
  | some d => (parsedRecords st).filter (fun b => b.deployment_name == d)
  | none => parsedRecords st

/-- The successful `list_backups` result, written out. -/
theorem list_backups_eq (st : RemoteFS) (f : Option String)
    (hdir : st.metadataDirExists = true) (hfind : st.findResult = none) :
    list_backups st f = .ok ((selectedRecords st f).mergeSort newestFirst) := by
  cases f <;> simp [list_backups, selectedRecords, hdir, hfind]

/-- **C6**: every list returned by `listBackups` is sorted by `created_at`
non-increasing (newest first), whatever the catalog enumeration order. -/
theorem listBackups_sorted_newest_first (st : RemoteFS) (f : Option String)
    (l : List BackupInfo) (h : list_backups st f = .ok l) :
    l.Pairwise (fun a b => b.created_at ≤ a.created_at) := by
  rcases list_backups_ok_inv st f l h with ⟨_, rfl⟩ | ⟨hdir, hfind⟩
  · exact List.Pairwise.nil
  · rw [list_backups_eq st f hdir hfind] at h
    injection h with h
    subst h
    exact (List.sorted_mergeSort newestFirst_trans newestFirst_total _).imp
      (fun hab => by simpa [newestFirst] using hab)

/-- A one-record catalog (newest-first evaluation is immediate). -/
def oneRecord : BackupInfo :=
  { id := "11111111-1111-1111-1111-111111111111",
    deployment_name := "site1", domain := "example.com", created_at := 1700000000,
    backup_type := .Website,
    remote_path := "/var/backups/rumi/site1_example.com_website_x/site1_example.com_website_x.tar.gz",
    size_bytes := 1024, description := some "Website backup for example.com" }

/-- A healthy single-record remote state. -/
def oneRecordFS : RemoteFS :=
  { metadataDirExists := true, findResult := none,
    metaFiles := [(metaPath defaultMgr oneRecord.id, some oneRecord)],
    archives := [oneRecord.remote_path],
    rmExit := fun _ => 0, rmStderr := fun _ => "" }

/-- Witness for C6 on the single-record catalog. -/
theorem listBackups_sorted_newest_first_witness :
    list_backups oneRecordFS none = .ok [oneRecord] ∧
    ([oneRecord] : List BackupInfo).Pairwise (fun a b => b.created_at ≤ a.created_at) := by
  have h : list_backups oneRecordFS none = .ok [oneRecord] := by
    rw [list_backups_eq oneRecordFS none rfl rfl]
    simp [selectedRecords, parsedRecords, oneRecordFS]
  exact ⟨h, listBackups_sorted_newest_first oneRecordFS none [oneRecord] h⟩

/-- **C7**: for every deployment name `d`, `listBackups(d)` is exactly the
subsequence of `listBackups(None)` whose records have `deployment_name = d`
(order included — the stable sort makes the two agree). -/
theorem listBackups_filter_correct (st : RemoteFS) (d : String)
    (lAll lD : List BackupInfo)
    (hAll : list_backups st none = .ok lAll)
    (hD : list_backups st (some d) = .ok lD) :
    lD = lAll.filter (fun b => b.deployment_name == d) := by
  rcases list_backups_ok_inv st none lAll hAll with ⟨hdir, rfl⟩ | ⟨hdir, hfind⟩
  · rcases list_backups_ok_inv st (some d) lD hD with ⟨_, rfl⟩ | ⟨hdir', _⟩
    · rfl
    · rw [hdir] at hdir'; cases hdir'
  · rw [list_backups_eq st none hdir hfind] at hAll
    rw [list_backups_eq st (some d) hdir hfind] at hD
    injection hAll with hAll
    injection hD with hD
    subst hAll
    subst hD
    exact mergeSort_filter newestFirst_trans newestFirst_total _ _

/-- Witness for C7 on the single-record catalog, filtering by the record's
own deployment name. -/
theorem listBackups_filter_correct_witness :
    list_backups oneRecordFS none = .ok [oneRecord] ∧
    list_backups oneRecordFS (some "site1") = .ok [oneRecord] ∧
    [oneRecord] = ([oneRecord] : List BackupInfo).filter
      (fun b => b.deployment_name == "site1") := by
  have hAll : list_backups oneRecordFS none = .ok [oneRecord] := by
    rw [list_backups_eq oneRecordFS none rfl rfl]
    simp [selectedRecords, parsedRecords, oneRecordFS]
  have hD : list_backups oneRecordFS (some "site1") = .ok [oneRecord] := by
    rw [list_backups_eq oneRecordFS (some "site1") rfl rfl]
    simp [selectedRecords, parsedRecords, oneRecordFS, oneRecord]
  exact ⟨hAll, hD,
    listBackups_filter_correct oneRecordFS "site1" [oneRecord] [oneRecord] hAll hD⟩

/-- Witness for the amended C5: on an all-successful run the staged-copy
cleanup command is among the issued commands. -/
theorem cfg_cleanup_after_compression_witness :
    cfgOkWorld.mkdirBackupDir = .ok () ∧ cfgOkWorld.cpNginx = .ok () ∧
    cfgOkWorld.cpSsl = .ok () ∧ cfgOkWorld.tar = .ok () ∧
    stagedCleanupCmd defaultMgr "20240101_000000" "dep" "example.com" ∈
      (create_configuration_backup defaultMgr cfgOkWorld "id0" 0
        "20240101_000000" "dep" "example.com").issued :=
  ⟨rfl, rfl, rfl, rfl,
   (cfg_cleanup_after_compression defaultMgr cfgOkWorld "id0" 0
      "20240101_000000" "dep" "example.com" rfl rfl rfl).1 rfl⟩

/-- **C4**: deleting an id that is not in the catalog fails with the
"Backup not found" error (the spec's `NotFoundError`), leaves the remote
state unchanged, and issues no removal command. -/
theorem deleteBackup_not_found (mgr : BackupManager) (st : RemoteFS)
    (backup_id : String) (l : List BackupInfo)
    (hl : list_backups st none = .ok l)
    (habs : ∀ b ∈ l, b.id ≠ backup_id) :
    delete_backup mgr st backup_id =
      ⟨.error (.fileOperation ("Backup not found: " ++ backup_id)), st, []⟩ := by
  have hnone : l.find? (fun b => b.id == backup_id) = none :=
    List.find?_eq_none.mpr (fun b hb => by simpa using habs b hb)
  simp [delete_backup, hl, hnone]

/-- Witness for C4: deleting `"does-not-exist"` from the one-record catalog
fails with `NotFoundError` and changes nothing. -/
theorem deleteBackup_not_found_witness :
    (∀ b ∈ ([oneRecord] : List BackupInfo), b.id ≠ "does-not-exist") ∧
    delete_backup defaultMgr oneRecordFS "does-not-exist" =
      ⟨.error (.fileOperation "Backup not found: does-not-exist"), oneRecordFS, []⟩ := by
  have hl : list_backups oneRecordFS none = .ok [oneRecord] := by
    rw [list_backups_eq oneRecordFS none rfl rfl]
    simp [selectedRecords, parsedRecords, oneRecordFS]
  exact ⟨by decide,
    deleteBackup_not_found defaultMgr oneRecordFS "does-not-exist" [oneRecord] hl
      (by decide)⟩

/-- **C10**: when `delete_backup` finds the record and the archive file
exists, a nonzero exit of the archive removal aborts the operation: the
error propagates, the state is unchanged (the metadata file stays), only
the archive `rm` was issued, and the record is still visible to
`list_backups`.  When instead the archive is *missing*, metadata removal
proceeds (its `rm` is issued whenever the metadata file exists). -/
theorem deleteBackup_archive_rm_failure_aborts (mgr : BackupManager)
    (st : RemoteFS) (backup_id : String) (l : List BackupInfo) (b : BackupInfo)
    (hl : list_backups st none = .ok l)
    (hf : l.find? (fun x => x.id == backup_id) = some b) :
    (fileExistsFS st b.remote_path = true → st.rmExit b.remote_path ≠ 0 →
      delete_backup mgr st backup_id =
        ⟨.error (rmError st b.remote_path), st, [rmCmdFor b.remote_path]⟩ ∧
      list_backups st none = .ok l ∧ b ∈ l) ∧
    (fileExistsFS st b.remote_path = false →
      fileExistsFS st (metaPath mgr backup_id) = true →
      rmCmdFor (metaPath mgr backup_id) ∈ (delete_backup mgr st backup_id).rmIssued) := by
  constructor
  · intro harch hrm
    have hrm' : (st.rmExit b.remote_path == 0) = false := by
      simpa using hrm
    refine ⟨?_, hl, List.mem_of_find?_eq_some hf⟩
    simp [delete_backup, hl, hf, harch, hrm']
  · intro harch hmp
    simp only [delete_backup, hl, hf, harch, delete_backup.deleteMetadata, hmp,
      Bool.false_eq_true, if_false, if_true]
    split <;> simp

/-- The one-record state, but the remote `rm` always exits 1. -/
def rmFailFS : RemoteFS :=
  { metadataDirExists := true, findResult := none,
    metaFiles := [(metaPath defaultMgr oneRecord.id, some oneRecord)],
    archives := [oneRecord.remote_path],
    rmExit := fun _ => 1, rmStderr := fun _ => "Permission denied" }

/-- Witness for C10: with the archive present and `rm` failing, the delete
aborts with the wrapped command error, leaves the state alone, and the
record is still listed. -/
theorem deleteBackup_archive_rm_failure_aborts_witness :
    fileExistsFS rmFailFS oneRecord.remote_path = true ∧
    rmFailFS.rmExit oneRecord.remote_path ≠ 0 ∧
    delete_backup defaultMgr rmFailFS oneRecord.id =
      ⟨.error (rmError rmFailFS oneRecord.remote_path), rmFailFS,
        [rmCmdFor oneRecord.remote_path]⟩ ∧
    oneRecord ∈ [oneRecord] := by
  have hl : list_backups rmFailFS none = .ok [oneRecord] := by
    rw [list_backups_eq rmFailFS none rfl rfl]
    simp [selectedRecords, parsedRecords, rmFailFS]
  have hf : ([oneRecord] : List BackupInfo).find?
      (fun x => x.id == oneRecord.id) = some oneRecord := by
    simp
  have h := (deleteBackup_archive_rm_failure_aborts defaultMgr rmFailFS
    oneRecord.id [oneRecord] oneRecord hl hf).1 (by decide) (by decide)
  exact ⟨by decide, by decide, h.1, h.2.2⟩

/-! ## Retention sweep (`cleanup_old_backups`) -/

/-- `metaPath` is injective in the id (the base path and the
`/metadata/`…`.json` decoration are fixed). -/
theorem metaPath_inj (mgr : BackupManager) {id1 id2 : String}
    (h : metaPath mgr id1 = metaPath mgr id2) : id1 = id2 := by
  unfold metaPath at h
  have hd := congrArg String.data h
  simp only [String.data_append, List.append_assoc] at hd
  have h1 := List.append_cancel_left hd
  have h2 := List.append_cancel_left h1
  have h3 := List.append_cancel_right h2
  exact String.ext h3

/-- A metadata file entry is canonical when its parsed record (if any)
lives at `metadata/{id}.json` for that record's id. -/
def entryCanonical (mgr : BackupManager) (e : String × Option BackupInfo) : Bool :=
  match e.2 with
  | some b => e.1 == metaPath mgr b.id
  | none => true

/-- Catalog well-formedness, as the code's own `save_backup_metadata`
produces it: every parsed metadata file lies at the canonical path of its
record, no metadata file path coincides with a parsed record's archive
path, and parsed record ids are pairwise distinct. -/
def wfCatalog (mgr : BackupManager) (st : RemoteFS) : Prop :=
  (∀ e ∈ st.metaFiles, entryCanonical mgr e = true) ∧
  (∀ e ∈ st.metaFiles, ∀ b ∈ parsedRecords st, e.1 ≠ b.remote_path) ∧
  ((parsedRecords st).map (fun b => b.id)).Nodup

/-- `removePath` only shrinks the metadata file list. -/
theorem removePath_metaFiles_sublist (st : RemoteFS) (p : String) :
    List.Sublist (removePath st p).metaFiles st.metaFiles :=
  List.filter_sublist _

/-- `removePath` keeps the probe/command behaviour and directory flags. -/
theorem removePath_flags (st : RemoteFS) (p : String) :
    (removePath st p).metadataDirExists = st.metadataDirExists ∧
    (removePath st p).findResult = st.findResult :=
  ⟨rfl, rfl⟩

/-- An entry at a different path survives `removePath`. -/
theorem mem_removePath (st : RemoteFS) (p : String)
    {e : String × Option BackupInfo} (he : e ∈ st.metaFiles) (hne : e.1 ≠ p) :
    e ∈ (removePath st p).metaFiles := by
  refine List.mem_filter.mpr ⟨he, ?_⟩
  simp [hne]

/-- Folding `removePath` shrinks the metadata file list. -/
theorem foldl_removePath_metaFiles_sublist (ps : List String) :
    ∀ st : RemoteFS, List.Sublist (ps.foldl removePath st).metaFiles st.metaFiles := by
  induction ps with
  | nil => intro st; exact List.Sublist.refl _
  | cons p ps ih =>
      intro st
      exact (ih (removePath st p)).trans (removePath_metaFiles_sublist st p)

/-- Folding `removePath` keeps the directory flag and find behaviour. -/
theorem foldl_removePath_flags (ps : List String) :
    ∀ st : RemoteFS,
      (ps.foldl removePath st).metadataDirExists = st.metadataDirExists ∧
      (ps.foldl removePath st).findResult = st.findResult := by
  induction ps with
  | nil => intro st; exact ⟨rfl, rfl⟩
  | cons p ps ih => intro st; exact ih (removePath st p)

/-- An entry whose path avoids every removed path survives the fold. -/
theorem mem_foldl_removePath (ps : List String) :
    ∀ (st : RemoteFS) {e : String × Option BackupInfo},
      e ∈ st.metaFiles → (∀ q ∈ ps, e.1 ≠ q) →
      e ∈ (ps.foldl removePath st).metaFiles := by
  induction ps with
  | nil => intro st e he _; exact he
  | cons p ps ih =>
      intro st e he hne
      exact ih (removePath st p)
        (mem_removePath st p he (hne p (List.mem_cons_self p ps)))
        (fun q hq => hne q (List.mem_cons_of_mem p hq))

/-- Well-formedness is preserved by anything that only shrinks the metadata
file list without touching the other fields' meaning. -/
theorem wfCatalog_mono (mgr : BackupManager) {st st' : RemoteFS}
    (hsub : List.Sublist st'.metaFiles st.metaFiles) (hwf : wfCatalog mgr st) :
    wfCatalog mgr st' := by
  obtain ⟨h1, h2, h3⟩ := hwf
  have hparsed : List.Sublist (parsedRecords st') (parsedRecords st) :=
    hsub.filterMap _
  refine ⟨?_, ?_, ?_⟩
  · exact fun e he => h1 e (hsub.mem he)
  · exact fun e he b hb => h2 e (hsub.mem he) b (hparsed.mem hb)
  · exact h3.sublist (hparsed.map _)

/-- The state `delete_backup` leaves behind is the input state with some
(possibly empty) list of paths removed, each of which is either the
metadata path of the requested id or the archive path of a parsed record
carrying that id. -/
theorem delete_backup_state_shape (mgr : BackupManager) (st : RemoteFS)
    (del_id : String) :
    ∃ removed : List String,
      (delete_backup mgr st del_id).state = removed.foldl removePath st ∧
      ∀ q ∈ removed, q = metaPath mgr del_id ∨
        ∃ backup ∈ parsedRecords st, backup.id = del_id ∧ q = backup.remote_path := by
  cases hlb : list_backups st none with
  | error e => exact ⟨[], by simp [delete_backup, hlb], by simp⟩
  | ok backups =>
      cases hf : backups.find? (fun b => b.id == del_id) with
      | none => exact ⟨[], by simp [delete_backup, hlb, hf], by simp⟩
      | some backup =>
          have hbid : backup.id = del_id := by simpa using List.find?_some hf
          have hbparsed : backup ∈ parsedRecords st := by
            rcases list_backups_ok_inv st none backups hlb with ⟨_, rfl⟩ | ⟨hdir, hfind⟩
            · simp at hf
            · rw [list_backups_eq st none hdir hfind] at hlb
              injection hlb with hlb
              have hmem := List.mem_of_find?_eq_some hf
              rw [← hlb] at hmem
              simpa [selectedRecords] using List.mem_mergeSort.mp hmem
          have harchmem : ∀ q : String, q = backup.remote_path →
              q = metaPath mgr del_id ∨
              ∃ b ∈ parsedRecords st, b.id = del_id ∧ q = b.remote_path :=
            fun q hq => Or.inr ⟨backup, hbparsed, hbid, hq⟩
          by_cases harch : fileExistsFS st backup.remote_path = true
          · by_cases hrm : (st.rmExit backup.remote_path == 0) = true
            · by_cases hmp : fileExistsFS (removePath st backup.remote_path)
                  (metaPath mgr del_id) = true
              · by_cases hrm2 : ((removePath st backup.remote_path).rmExit
                    (metaPath mgr del_id) == 0) = true
                · refine ⟨[backup.remote_path, metaPath mgr del_id], ?_, ?_⟩
                  · simp [delete_backup, hlb, hf, harch, hrm,
                      delete_backup.deleteMetadata, hmp, hrm2]
                  · intro q hq
                    simp only [List.mem_cons, List.not_mem_nil, or_false] at hq
                    rcases hq with rfl | rfl
                    · exact harchmem _ rfl
                    · exact Or.inl rfl
                · refine ⟨[backup.remote_path], ?_, ?_⟩
                  · simp [delete_backup, hlb, hf, harch, hrm,
                      delete_backup.deleteMetadata, hmp, hrm2]
                  · intro q hq
                    simp only [List.mem_singleton] at hq
                    subst hq
                    exact harchmem _ rfl
              · refine ⟨[backup.remote_path], ?_, ?_⟩
                · simp [delete_backup, hlb, hf, harch, hrm,
                    delete_backup.deleteMetadata, hmp]
                · intro q hq
                  simp only [List.mem_singleton] at hq
                  subst hq
                  exact harchmem _ rfl
            · exact ⟨[], by simp [delete_backup, hlb, hf, harch, hrm], by simp⟩
          · by_cases hmp : fileExistsFS st (metaPath mgr del_id) = true
            · by_cases hrm2 : (st.rmExit (metaPath mgr del_id) == 0) = true
              · refine ⟨[metaPath mgr del_id], ?_, ?_⟩
                · simp [delete_backup, hlb, hf, harch,
                    delete_backup.deleteMetadata, hmp, hrm2]
                · intro q hq
                  simp only [List.mem_singleton] at hq
                  subst hq
                  exact Or.inl rfl
              · exact ⟨[], by simp [delete_backup, hlb, hf, harch,
                  delete_backup.deleteMetadata, hmp, hrm2], by simp⟩
            · exact ⟨[], by simp [delete_backup, hlb, hf, harch,
                delete_backup.deleteMetadata, hmp], by simp⟩

/-- `delete_backup` never touches the directory flag or the find behaviour. -/
theorem delete_backup_preserves_flags (mgr : BackupManager) (st : RemoteFS)
    (del_id : String) :
    (delete_backup mgr st del_id).state.metadataDirExists = st.metadataDirExists ∧
    (delete_backup mgr st del_id).state.findResult = st.findResult := by
  obtain ⟨removed, heq, -⟩ := delete_backup_state_shape mgr st del_id
  rw [heq]
  exact foldl_removePath_flags removed st

/-- `delete_backup` preserves catalog well-formedness. -/
theorem delete_backup_preserves_wf (mgr : BackupManager) (st : RemoteFS)
    (del_id : String) (hwf : wfCatalog mgr st) :
    wfCatalog mgr (delete_backup mgr st del_id).state := by
  obtain ⟨removed, heq, -⟩ := delete_backup_state_shape mgr st del_id
  rw [heq]
  exact wfCatalog_mono mgr (foldl_removePath_metaFiles_sublist removed st) hwf

/-- On a well-formed catalog, deleting one id leaves every parsed metadata
entry of a *different* id in place. -/
theorem delete_backup_preserves_entry (mgr : BackupManager) (st : RemoteFS)
    (del_id : String) {p : String} {b' : BackupInfo}
    (hwf : wfCatalog mgr st) (hmem : (p, some b') ∈ st.metaFiles)
    (hne : b'.id ≠ del_id) :
    (p, some b') ∈ (delete_backup mgr st del_id).state.metaFiles := by
  obtain ⟨removed, heq, hrem⟩ := delete_backup_state_shape mgr st del_id
  rw [heq]
  refine mem_foldl_removePath removed st hmem ?_
  intro q hq
  have hp : p = metaPath mgr b'.id := by
    have hc := hwf.1 (p, some b') hmem
    simpa [entryCanonical] using hc
  rcases hrem q hq with rfl | ⟨backup, hbp, hbid, rfl⟩
  · rw [hp]
    intro hcontra
    exact hne (metaPath_inj mgr hcontra)
  · exact hwf.2.1 (p, some b') hmem backup hbp

/-- Over the sweep loop: a well-formed state stays well-formed, the flags
survive, and any parsed entry whose id is never deleted survives. -/
theorem cleanupLoop_preserves (mgr : BackupManager) (cutoff : Int) :
    ∀ (bs : List BackupInfo) (st : RemoteFS) (c : Nat)
      {p : String} {b' : BackupInfo},
      wfCatalog mgr st → (p, some b') ∈ st.metaFiles →
      (∀ x ∈ bs, x.created_at < cutoff → x.id ≠ b'.id) →
      (p, some b') ∈ (cleanupLoop mgr cutoff bs st c).1.metaFiles ∧
      wfCatalog mgr (cleanupLoop mgr cutoff bs st c).1 ∧
      (cleanupLoop mgr cutoff bs st c).1.metadataDirExists = st.metadataDirExists ∧
      (cleanupLoop mgr cutoff bs st c).1.findResult = st.findResult := by
  intro bs
  induction bs with
  | nil =>
      intro st c p b' hwf hmem _
      exact ⟨hmem, hwf, rfl, rfl⟩
  | cons x rest ih =>
      intro st c p b' hwf hmem hids
      by_cases hx : x.created_at < cutoff
      · have hxid : x.id ≠ b'.id := hids x (List.mem_cons_self x rest) hx
        have hmem' := delete_backup_preserves_entry mgr st x.id hwf hmem
          (fun h => hxid h.symm)
        have hwf' := delete_backup_preserves_wf mgr st x.id hwf
        have hflags := delete_backup_preserves_flags mgr st x.id
        have hrest : ∀ y ∈ rest, y.created_at < cutoff → y.id ≠ b'.id :=
          fun y hy => hids y (List.mem_cons_of_mem x hy)
        cases hr : (delete_backup mgr st x.id).result with
        | error e =>
            have hrec := ih (delete_backup mgr st x.id).state c hwf' hmem' hrest
            simp only [cleanupLoop, hx, if_true, hr]
            exact ⟨hrec.1, hrec.2.1, hrec.2.2.1.trans hflags.1,
              hrec.2.2.2.trans hflags.2⟩
        | ok u =>
            have hrec := ih (delete_backup mgr st x.id).state (c + 1) hwf' hmem' hrest
            simp only [cleanupLoop, hx, if_true, hr]
            exact ⟨hrec.1, hrec.2.1, hrec.2.2.1.trans hflags.1,
              hrec.2.2.2.trans hflags.2⟩
      · simp only [cleanupLoop, hx, if_false]
        exact ih st c hwf hmem
          (fun y hy => hids y (List.mem_cons_of_mem x hy))

/-- The sweep attempts a delete exactly on the records older than the
cutoff, in catalog order. -/
theorem cleanupLoop_attempted (mgr : BackupManager) (cutoff : Int) :
    ∀ (bs : List BackupInfo) (st : RemoteFS) (c : Nat),
      (cleanupLoop mgr cutoff bs st c).2.2 =
        (bs.filter (fun b => decide (b.created_at < cutoff))).map (fun b => b.id) := by
  intro bs
  induction bs with
  | nil => intro st c; simp [cleanupLoop]
  | cons x rest ih =>
      intro st c
      by_cases hx : x.created_at < cutoff
      · cases hr : (delete_backup mgr st x.id).result with
        | error e => simp [cleanupLoop, hx, hr, ih]
        | ok u => simp [cleanupLoop, hx, hr, ih]
      · simp [cleanupLoop, hx, ih]

/-- **C2, amended**: on a well-formed catalog, `cleanup_old_backups`
computes `cutoff = now - retentionDays`, attempts `deleteBackup` exactly on
the listed records with `created_at < cutoff` (in order), swallows
per-record failures (the sweep finishes with `Ok`), and leaves every other
record present in the catalog.  The Rust function, however, returns unit:
the count of successful deletions is only accumulated for logging, not
returned (see the counterexample). -/
theorem cleanup_retention_sweep (mgr : BackupManager) (st : RemoteFS)
    (now : Int) (days : Nat) (backups : List BackupInfo)
    (hwf : wfCatalog mgr st)
    (hl : list_backups st none = .ok backups) :
    (cleanup_old_backups mgr st now days).result = .ok () ∧
    (cleanup_old_backups mgr st now days).attempted =
      (backups.filter (fun b => decide (b.created_at < now - durationDays days))).map
        (fun b => b.id) ∧
    ∀ b' ∈ backups, ¬(b'.created_at < now - durationDays days) →
      ∃ l', list_backups (cleanup_old_backups mgr st now days).state none = .ok l' ∧
        b' ∈ l' := by
  have hc : cleanup_old_backups mgr st now days =
      ⟨.ok (), (cleanupLoop mgr (now - durationDays days) backups st 0).1,
        (cleanupLoop mgr (now - durationDays days) backups st 0).2.1,
        (cleanupLoop mgr (now - durationDays days) backups st 0).2.2⟩ := by
    simp [cleanup_old_backups, hl]
  refine ⟨by rw [hc], ?_, ?_⟩
  · rw [hc]
    exact cleanupLoop_attempted mgr (now - durationDays days) backups st 0
  · intro b' hb hkeep
    rcases list_backups_ok_inv st none backups hl with ⟨_, rfl⟩ | ⟨hdir, hfind⟩
    · exact absurd hb (List.not_mem_nil b')
    · have hlist := list_backups_eq st none hdir hfind
      rw [hlist] at hl
      injection hl with hl
      have hbp : b' ∈ parsedRecords st := by
        rw [← hl] at hb
        simpa [selectedRecords] using List.mem_mergeSort.mp hb
      obtain ⟨e, he, he2⟩ := List.mem_filterMap.mp hbp
      obtain ⟨p, c⟩ := e
      simp only at he2
      subst he2
      have hids : ∀ x ∈ backups,
          x.created_at < now - durationDays days → x.id ≠ b'.id := by
        intro x hx hxc heq
        have hxp : x ∈ parsedRecords st := by
          rw [← hl] at hx
          simpa [selectedRecords] using List.mem_mergeSort.mp hx
        have hxb : x = b' := List.inj_on_of_nodup_map hwf.2.2 hxp hbp heq
        rw [hxb] at hxc
        exact hkeep hxc
      obtain ⟨hmemF, hwfF, hdirF, hfindF⟩ :=
        cleanupLoop_preserves mgr (now - durationDays days) backups st 0 hwf he hids
      refine ⟨(selectedRecords
          (cleanupLoop mgr (now - durationDays days) backups st 0).1
          none).mergeSort newestFirst, ?_, ?_⟩
      · rw [hc]
        exact list_backups_eq _ none (hdirF.trans hdir) (hfindF.trans hfind)
      · rw [List.mem_mergeSort]
        simp only [selectedRecords]
        exact List.mem_filterMap.mpr ⟨(p, some b'), hmemF, rfl⟩

/-- A record 40 days old on the scale where `now = 86400 * 40`. -/
def oldRecord : BackupInfo :=
  { id := "aaaaaaaa-0000-0000-0000-000000000000",
    deployment_name := "site1", domain := "example.com", created_at := 0,
    backup_type := .Website,
    remote_path := "/var/backups/rumi/old/old.tar.gz",
    size_bytes := 10, description := none }

/-- A record 20 days old on the same scale, which a 30-day sweep keeps. -/
def keptRecord : BackupInfo :=
  { id := "bbbbbbbb-0000-0000-0000-000000000000",
    deployment_name := "site1", domain := "example.com",
    created_at := 86400 * 20,
    backup_type := .Website,
    remote_path := "/var/backups/rumi/kept/kept.tar.gz",
    size_bytes := 20, description := none }

/-- Catalog holding only the old record; deletions succeed. -/
def oldOnlyFS : RemoteFS :=
  { metadataDirExists := true, findResult := none,
    metaFiles := [(metaPath defaultMgr oldRecord.id, some oldRecord)],
    archives := [oldRecord.remote_path],
    rmExit := fun _ => 0, rmStderr := fun _ => "" }

/-- An empty (but existing) catalog. -/
def emptyFS : RemoteFS :=
  { metadataDirExists := true, findResult := none, metaFiles := [],
    archives := [], rmExit := fun _ => 0, rmStderr := fun _ => "" }

/-- **C2, counterexample**: `cleanup_old_backups` does *not* return the
count of records actually deleted — its Rust return type is `Result<()>`.
Two sweeps that delete different numbers of records (one and zero here,
visible in the internal logged counter) return the very same value
`Ok(())`, so the return value carries no count. -/
theorem cleanup_does_not_return_count :
    (cleanup_old_backups defaultMgr oldOnlyFS (86400 * 40) 30).deleted_count = 1 ∧
    (cleanup_old_backups defaultMgr emptyFS (86400 * 40) 30).deleted_count = 0 ∧
    (cleanup_old_backups defaultMgr oldOnlyFS (86400 * 40) 30).result =
      (cleanup_old_backups defaultMgr emptyFS (86400 * 40) 30).result := by
  have hl : list_backups oldOnlyFS none = .ok [oldRecord] := by
    rw [list_backups_eq oldOnlyFS none rfl rfl]
    simp [selectedRecords, parsedRecords, oldOnlyFS]
  have hdel : (delete_backup defaultMgr oldOnlyFS oldRecord.id).result = .ok () := by
    unfold delete_backup
    rw [hl]
    rfl
  have hempty : list_backups emptyFS none = .ok [] := by
    rw [list_backups_eq emptyFS none rfl rfl]
    simp [selectedRecords, parsedRecords, emptyFS]
  refine ⟨?_, ?_, ?_⟩
  · unfold cleanup_old_backups
    rw [hl]
    simp only [cleanupLoop]
    rw [if_pos (by decide : oldRecord.created_at < 86400 * 40 - durationDays 30)]
    rw [hdel]
  · unfold cleanup_old_backups
    rw [hempty]
    rfl
  · unfold cleanup_old_backups
    rw [hl, hempty]

/-- Two-record catalog, listed newest first; deletions succeed. -/
def twoRecordFS : RemoteFS :=
  { metadataDirExists := true, findResult := none,
    metaFiles := [(metaPath defaultMgr keptRecord.id, some keptRecord),
                  (metaPath defaultMgr oldRecord.id, some oldRecord)],
    archives := [keptRecord.remote_path, oldRecord.remote_path],
    rmExit := fun _ => 0, rmStderr := fun _ => "" }

/-- Witness for the amended C2: a 30-day sweep over a catalog holding a
40-day-old and a 20-day-old record attempts exactly the old record's id,
finishes with `Ok`, and keeps the young record listed. -/
theorem cleanup_retention_sweep_witness :
    wfCatalog defaultMgr twoRecordFS ∧
    list_backups twoRecordFS none = .ok [keptRecord, oldRecord] ∧
    ((cleanup_old_backups defaultMgr twoRecordFS (86400 * 40) 30).result = .ok () ∧
     (cleanup_old_backups defaultMgr twoRecordFS (86400 * 40) 30).attempted =
       (([keptRecord, oldRecord] : List BackupInfo).filter
         (fun b => decide (b.created_at < 86400 * 40 - durationDays 30))).map
         (fun b => b.id) ∧
     ∀ b' ∈ ([keptRecord, oldRecord] : List BackupInfo),
       ¬(b'.created_at < 86400 * 40 - durationDays 30) →
       ∃ l', list_backups
           (cleanup_old_backups defaultMgr twoRecordFS (86400 * 40) 30).state
           none = .ok l' ∧ b' ∈ l') := by
  have hwf : wfCatalog defaultMgr twoRecordFS :=
    ⟨by decide, by decide, by decide⟩
  have hl : list_backups twoRecordFS none = .ok [keptRecord, oldRecord] := by
    rw [list_backups_eq twoRecordFS none rfl rfl]
    rw [show selectedRecords twoRecordFS none = [keptRecord, oldRecord] from rfl]
    rw [List.mergeSort_of_sorted (by decide)]
  exact ⟨hwf, hl,
    cleanup_retention_sweep defaultMgr twoRecordFS (86400 * 40) 30
      [keptRecord, oldRecord] hwf hl⟩

end Rumi
